import Mathlib

/-!
Verification of the batching iterator in `queryset_iterator/core.py`.

The module contains two generator functions, `queryset_iterator` (lines 15-71,
with an `iterator_return` flag selecting between yielding individual records and
yielding lazy batch handles) and `queryset_iterator_qs` (lines 74-122, always
yielding batch handles).  Both draw the distinct primary keys of a queryset into
buffers of at most `batchsize` keys inside a `while True` loop whose body is a
`try ... except StopIteration: break ... finally: <yield step; per-batch gc>`,
followed by an optional end-of-pass `gc.collect()`.

The embedding below models a queryset as a finite list of `(pk, payload)`
records, the primary-key stream as the deduplicated list of pks, and one full
consumption of the generator as the list of observable events it produces
(keys drawn, fetches issued, records or batch handles yielded, gc invocations)
together with an optional Python exception.  Python's generator semantics are
reflected by splitting the call (`queryset_iterator`, which only packages the
arguments and runs no body code) from the consumption (`Generator.consume`).
`batchsize` is modelled as a rational number so that non-integral arguments
such as 1.5 and their `len(pk_buffer) < batchsize` comparisons are expressible.
-/

namespace QuerysetIterator

/-- Primary keys of records. -/
abbrev Key := Nat

/-- A database record: its primary key together with a payload distinguishing
records. -/
abbrev Record := Key × Nat

/-- `GC_COLLECT_BATCH = 1` (core.py line 10). -/
def GC_COLLECT_BATCH : Int := 1

/-- `GC_COLLECT_END = 2` (core.py line 12). -/
def GC_COLLECT_END : Int := 2

/-- The Python exceptions the component can surface: `ValueError` (core.py
lines 31 and 89), `TypeError` (line 92), an arbitrary error raised by the
data source's key enumeration (modelled opaquely as `sourceError`), and an
arbitrary error raised by a record fetch (line 57, modelled opaquely as
`fetchError`). -/
inductive PyError
  | valueError
  | typeError
  | sourceError
  | fetchError
deriving DecidableEq

/-- Observable events of one full consumption of the generator:
a primary key drawn from the key stream (line 48 and line 106), a record fetch
issued and materialised (`queryset.filter(pk__in=...).iterator()`, line 57),
a single record yielded to the caller (line 58), a lazy batch handle
(`queryset.filter(pk__in=pk_buffer)`) yielded unconsumed (line 62 and
line 113, identified by its key buffer), and a `gc.collect()` call (lines 67,
71, 118, 122). -/
inductive Event
  | keyDrawn (k : Key)
  | fetchCall (pks : List Key)
  | yieldRecord (r : Record)
  | yieldBatch (pks : List Key)
  | gcCollect
deriving DecidableEq

/-- `queryset.filter(pk__in=pks)` materialised by `.iterator()` (line 57): the
records of the queryset whose primary key lies in `pks`, in source order.
(Section 6 of the design leaves the fetch order unspecified; source order is
the order used throughout.) -/
def filterFetch (db : List Record) (pks : List Key) : List Record :=
  db.filter (fun r => decide (r.1 ∈ pks))

/-- `queryset.values_list('pk', flat=True).distinct().iterator()` (line 39 and
line 97): the deduplicated sequence of primary keys of the queryset. -/
def distinctPks (db : List Record) : List Key :=
  (db.map Prod.fst).dedup

/-- The inner `while len(pk_buffer) < batchsize: pk_buffer.append(iterator.next())`
loop (lines 47-48 and 105-106).  Given the remaining key stream and the current
buffer, it returns the final buffer, the unconsumed remainder of the stream,
and whether the stream was exhausted (`StopIteration` raised, line 49). -/
def drawBatch (batchsize : ℚ) : List Key → List Key → List Key × List Key × Bool
  | [], buf =>
    if (buf.length : ℚ) < batchsize then (buf, [], true) else (buf, [], false)
  | k :: rest, buf =>
    if (buf.length : ℚ) < batchsize then drawBatch batchsize rest (buf ++ [k])
    else (buf, k :: rest, false)

/-- The yield step of the `finally` block of `queryset_iterator` (lines 53-62):
with `iterator_return` true the filter is materialised and each record is
yielded singly; with `iterator_return` false the unconsumed batch handle is
yielded. -/
def yieldEvents (iterator_return : Bool) (db : List Record) (buf : List Key) :
    List Event :=
  if iterator_return then
    Event.fetchCall buf :: (filterFetch db buf).map Event.yieldRecord
  else [Event.yieldBatch buf]

/-- Lines 64-67 (and 115-118): `if gc_collect == GC_COLLECT_BATCH and pk_buffer:
gc.collect()`. -/
def gcBatchEvents (gc_collect : Int) (buf : List Key) : List Event :=
  if gc_collect = GC_COLLECT_BATCH ∧ buf ≠ [] then [Event.gcCollect] else []

/-- Lines 69-71 (and 120-122): `if gc_collect == GC_COLLECT_END: gc.collect()`. -/
def gcEndEvents (gc_collect : Int) : List Event :=
  if gc_collect = GC_COLLECT_END then [Event.gcCollect] else []

/-- The `while True` loop of `queryset_iterator` (lines 42-67).  Each iteration
draws a buffer; the `finally` block then runs the yield step and the per-batch
gc check in every case, including on the `StopIteration` path where the loop
then `break`s.  `fuel` bounds the number of loop iterations; for
`1 ≤ batchsize` a fuel of `keys.length + 1` is exact (each non-final iteration
consumes at least one key, and exactly one final iteration observes the
exhausted stream). -/
def runLoop (db : List Record) (batchsize : ℚ) (gc_collect : Int)
    (iterator_return : Bool) : Nat → List Key → List Event
  | 0, _ => []
  | fuel + 1, keys =>
    match drawBatch batchsize keys [] with
    | (buf, rest, exhausted) =>
      let seg := buf.map Event.keyDrawn ++ yieldEvents iterator_return db buf ++
        gcBatchEvents gc_collect buf
      if exhausted then seg
      else seg ++ runLoop db batchsize gc_collect iterator_return fuel rest

/-- A suspended generator returned by calling `queryset_iterator`: in Python a
call to a generator function runs none of the body, it only packages the
arguments. -/
structure Generator where
  queryset : List Record
  batchsize : ℚ
  gc_collect : Int
  iterator_return : Bool

/-- `queryset_iterator(queryset, batchsize, gc_collect, iterator_return)`
(core.py line 15): calling the generator function performs no validation and
draws no key; it only builds the suspended generator. -/
def queryset_iterator (queryset : List Record) (batchsize : ℚ) (gc_collect : Int)
    (iterator_return : Bool) : Generator :=
  ⟨queryset, batchsize, gc_collect, iterator_return⟩

/-- One full consumption of the generator (lines 30-71).  The body first
validates `batchsize < 1` (lines 30-31; the `isinstance` type check of lines
33-34 is commented out in the source), then opens the deduplicated key stream
(line 39), runs the main loop, and finally performs the end-of-pass gc check
(lines 69-71). -/
def Generator.consume (g : Generator) : List Event × Option PyError :=
  if g.batchsize < 1 then ([], some PyError.valueError)
  else
    (runLoop g.queryset g.batchsize g.gc_collect g.iterator_return
        ((distinctPks g.queryset).length + 1) (distinctPks g.queryset) ++
      gcEndEvents g.gc_collect,
     none)

/-- The `while True` loop of `queryset_iterator_qs` (lines 100-118): identical
to the loop of `queryset_iterator` except that the yield step always yields
the unconsumed batch handle (line 113). -/
def runLoop_qs (batchsize : ℚ) (gc_collect : Int) : Nat → List Key → List Event
  | 0, _ => []
  | fuel + 1, keys =>
    match drawBatch batchsize keys [] with
    | (buf, rest, exhausted) =>
      let seg := buf.map Event.keyDrawn ++ [Event.yieldBatch buf] ++
        gcBatchEvents gc_collect buf
      if exhausted then seg
      else seg ++ runLoop_qs batchsize gc_collect fuel rest

/-- `queryset_iterator_qs` (lines 74-122), modelled as one full consumption.
It validates `batchsize < 1` first (lines 88-89), then
`not isinstance(batchsize, int)` (lines 91-92, modelled for numeric arguments
as the batch size being a non-integral rational), then runs the batch loop and
the end-of-pass gc check. -/
def queryset_iterator_qs (queryset : List Record) (batchsize : ℚ)
    (gc_collect : Int) : List Event × Option PyError :=
  if batchsize < 1 then ([], some PyError.valueError)
  else if batchsize.isInt = false then ([], some PyError.typeError)
  else
    (runLoop_qs batchsize gc_collect ((distinctPks queryset).length + 1)
        (distinctPks queryset) ++ gcEndEvents gc_collect,
     none)

/-- Outcome of one run of the inner drawing loop when the key stream may raise:
the buffer reached the batch size, the stream was exhausted (`StopIteration`),
or the stream raised some other error. -/
inductive DrawStop
  | filled
  | exhausted
  | errored
deriving DecidableEq

/-- The inner drawing loop (lines 47-48) over a key stream whose entries may
raise: `Except.ok k` is a key delivered by `iterator.next()` and
`Except.error ()` is a call of `iterator.next()` that raises an error other
than `StopIteration`.  Such an error is not caught by the
`except StopIteration` clause (line 49) and aborts the draw at once. -/
def drawBatchE (batchsize : ℚ) :
    List (Except Unit Key) → List Key → List Key × List (Except Unit Key) × DrawStop
  | [], buf =>
    if (buf.length : ℚ) < batchsize then (buf, [], DrawStop.exhausted)
    else (buf, [], DrawStop.filled)
  | e :: rest, buf =>
    if (buf.length : ℚ) < batchsize then
      match e with
      | Except.ok k => drawBatchE batchsize rest (buf ++ [k])
      | Except.error _ => (buf, rest, DrawStop.errored)
    else (buf, e :: rest, DrawStop.filled)

/-- The `while True` loop of `queryset_iterator` over a fallible key stream.
When `iterator.next()` raises an error other than `StopIteration`, the
`finally` block (lines 52-67) still runs its yield step and per-batch gc check
for the partially filled buffer before the error resumes propagating out of
the generator; nothing after the loop is executed on that path. -/
def runLoopE (db : List Record) (batchsize : ℚ) (gc_collect : Int)
    (iterator_return : Bool) :
    Nat → List (Except Unit Key) → List Event × Option PyError
  | 0, _ => ([], none)
  | fuel + 1, stream =>
    match drawBatchE batchsize stream [] with
    | (buf, rest, status) =>
      let seg := buf.map Event.keyDrawn ++ yieldEvents iterator_return db buf ++
        gcBatchEvents gc_collect buf
      match status with
      | DrawStop.exhausted => (seg, none)
      | DrawStop.errored => (seg, some PyError.sourceError)
      | DrawStop.filled =>
        match runLoopE db batchsize gc_collect iterator_return fuel rest with
        | (evts, err) => (seg ++ evts, err)

/-- One full consumption of `queryset_iterator` over a fallible key stream:
validation as in lines 30-31, then the loop; the end-of-pass gc check (lines
69-71) runs only when the loop terminates normally, not when an error
propagates out of it. -/
def queryset_iteratorE (db : List Record) (batchsize : ℚ) (gc_collect : Int)
    (iterator_return : Bool) (stream : List (Except Unit Key)) :
    List Event × Option PyError :=
  if batchsize < 1 then ([], some PyError.valueError)
  else
    match runLoopE db batchsize gc_collect iterator_return (stream.length + 1)
        stream with
    | (evts, none) => (evts ++ gcEndEvents gc_collect, none)
    | (evts, some e) => (evts, some e)

/-- The yield step of the `finally` block (lines 53-62) over a fallible fetch.
The fetch itself is the external collaborator of section 6 of the design
(DataSource.fetch), modelled abstractly as a function giving, for a key
buffer, the records its lazy iterator delivers in order together with whether
the iterator then raises an error instead of terminating normally; the
infallible queryset fetch of line 57 is `fun pks => (filterFetch db pks,
false)`.  In RECORDS mode the fetch is materialised and each delivered record
is yielded; in BATCHES mode the unconsumed handle is yielded and no fetch is
executed at all, so no fetch error can arise.  Returns the emitted events
together with whether the fetch raised. -/
def yieldEventsF (iterator_return : Bool) (fetchF : List Key → List Record × Bool)
    (buf : List Key) : List Event × Bool :=
  if iterator_return then
    (Event.fetchCall buf :: (fetchF buf).1.map Event.yieldRecord, (fetchF buf).2)
  else ([Event.yieldBatch buf], false)

/-- The `while True` loop of `queryset_iterator` over a fallible key stream
and a fallible fetch.  A fetch error raised inside the `finally` block's
`for` loop (line 57) skips the per-batch gc check (lines 64-67) and
terminates the `finally` block with that error, which propagates at once
(replacing a pending key-stream error, if any, per Python exception
semantics); a key-stream error lets the `finally` block complete its yield
step and gc check before resuming propagation. -/
def runLoopF (fetchF : List Key → List Record × Bool) (batchsize : ℚ)
    (gc_collect : Int) (iterator_return : Bool) :
    Nat → List (Except Unit Key) → List Event × Option PyError
  | 0, _ => ([], none)
  | fuel + 1, stream =>
    match drawBatchE batchsize stream [] with
    | (buf, rest, status) =>
      match yieldEventsF iterator_return fetchF buf with
      | (yevts, fetchRaised) =>
        let seg := buf.map Event.keyDrawn ++ yevts
        if fetchRaised then (seg, some PyError.fetchError)
        else
          match status with
          | DrawStop.exhausted => (seg ++ gcBatchEvents gc_collect buf, none)
          | DrawStop.errored =>
            (seg ++ gcBatchEvents gc_collect buf, some PyError.sourceError)
          | DrawStop.filled =>
            match runLoopF fetchF batchsize gc_collect iterator_return fuel rest with
            | (evts, err) => (seg ++ gcBatchEvents gc_collect buf ++ evts, err)

/-- One full consumption of `queryset_iterator` over a fallible key stream and
a fallible fetch: validation as in lines 30-31, then the loop; the end-of-pass
gc check (lines 69-71) runs only when the loop terminates normally. -/
def queryset_iteratorF (fetchF : List Key → List Record × Bool) (batchsize : ℚ)
    (gc_collect : Int) (iterator_return : Bool)
    (stream : List (Except Unit Key)) : List Event × Option PyError :=
  if batchsize < 1 then ([], some PyError.valueError)
  else
    match runLoopF fetchF batchsize gc_collect iterator_return
        (stream.length + 1) stream with
    | (evts, none) => (evts ++ gcEndEvents gc_collect, none)
    | (evts, some e) => (evts, some e)

/-- The number of keys one loop iteration packs into a buffer: the least
number of keys `n` with `¬ (n < batchsize)`, the ceiling of the rational
batch size. -/
def ceilNat (batchsize : ℚ) : Nat := (Int.ceil batchsize).toNat

/-- The sequence of buffers the `while True` loop builds from a key list with
effective batch size `c`: full buffers of `c` keys while at least `c` keys
remain, then the final short buffer, which is empty exactly when `c` divides
the number of keys (in particular for an empty key list). -/
def chunksT (c : Nat) (keys : List Key) : List (List Key) :=
  if _h1 : keys.length < c then [keys]
  else if _h2 : c = 0 then []
  else keys.take c :: chunksT c (keys.drop c)
termination_by keys.length
decreasing_by
  simp only [List.length_drop]
  omega

/-- The events one loop iteration emits for the buffer `ch`: the keys drawn
into the buffer, the yield step of the `finally` block, and its per-batch gc
check. -/
def batchSegment (db : List Record) (gc_collect : Int) (iterator_return : Bool)
    (ch : List Key) : List Event :=
  ch.map Event.keyDrawn ++ yieldEvents iterator_return db ch ++
    gcBatchEvents gc_collect ch

/-- The records a trace yields to the caller, in order. -/
def yieldedRecords (evts : List Event) : List Record :=
  evts.filterMap fun e =>
    match e with
    | Event.yieldRecord r => some r
    | _ => none

/-- The key buffers of the fetches a trace issues, in order. -/
def fetchBuffers (evts : List Event) : List (List Key) :=
  evts.filterMap fun e =>
    match e with
    | Event.fetchCall pks => some pks
    | _ => none

/-- The number of non-empty buffers in a buffer sequence. -/
def nonemptyCount (L : List (List Key)) : Nat :=
  (L.filter (fun ch => !ch.isEmpty)).length

/-- The events the RECORDS-mode yield step emits for the buffer `ch` under a
fallible fetch, up to the point where the fetch iterator either ends or
raises: the keys drawn into the buffer, the fetch call, and the records the
fetch delivered before stopping. -/
def recordSegmentF (fetchF : List Key → List Record × Bool) (ch : List Key) :
    List Event :=
  ch.map Event.keyDrawn ++
    Event.fetchCall ch :: (fetchF ch).1.map Event.yieldRecord

/-- A concrete fallible fetch: it behaves as the infallible fetch of the
two-record source (1,10),(2,20) except that a fetch whose key set contains
key 3 raises before delivering any record. -/
def fetchRaisingOn3 : List Key → List Record × Bool :=
  fun pks => (filterFetch [(1, 10), (2, 20)] pks, pks.contains 3)

/-- The non-integral rational 3/2, a concrete non-integer batch size. -/
def threeHalves : ℚ := ⟨3, 2, by norm_num, by norm_num⟩

/-- The non-integral rational 1/2, a concrete non-integer batch size below 1. -/
def oneHalf : ℚ := ⟨1, 2, by norm_num, by norm_num⟩

lemma natCast_lt_iff (batchsize : ℚ) (n : Nat) :
    ((n : ℚ) < batchsize) ↔ n < ceilNat batchsize := by
  unfold ceilNat
  rw [Int.lt_toNat, Int.lt_ceil]
  norm_cast

lemma ceilNat_pos {batchsize : ℚ} (hb : 1 ≤ batchsize) : 0 < ceilNat batchsize :=
  (natCast_lt_iff batchsize 0).mp (by simpa using lt_of_lt_of_le zero_lt_one hb)

lemma drawBatch_eq (batchsize : ℚ) :
    ∀ (keys buf : List Key),
      drawBatch batchsize keys buf =
        if buf.length + keys.length < ceilNat batchsize then (buf ++ keys, [], true)
        else (buf ++ keys.take (ceilNat batchsize - buf.length),
              keys.drop (ceilNat batchsize - buf.length), false) := by
  intro keys
  induction keys with
  | nil =>
    intro buf
    simp [drawBatch, natCast_lt_iff]
  | cons k rest ih =>
    intro buf
    simp only [drawBatch, natCast_lt_iff]
    by_cases h : buf.length < ceilNat batchsize
    · rw [if_pos h, ih]
      have hlen : (buf ++ [k]).length = buf.length + 1 := by simp
      obtain ⟨m, hm⟩ : ∃ m, ceilNat batchsize - buf.length = m + 1 :=
        ⟨ceilNat batchsize - buf.length - 1, by omega⟩
      have hm' : ceilNat batchsize - (buf ++ [k]).length = m := by omega
      rw [hm', hm]
      have hc1 : ((buf ++ [k]).length + rest.length < ceilNat batchsize) ↔
          (buf.length + (k :: rest).length < ceilNat batchsize) := by
        simp only [List.length_cons]
        omega
      by_cases h2 : buf.length + (k :: rest).length < ceilNat batchsize
      · rw [if_pos (hc1.mpr h2), if_pos h2]
        simp
      · rw [if_neg (fun hh => h2 (hc1.mp hh)), if_neg h2]
        simp [List.take_succ_cons, List.drop_succ_cons]
    · rw [if_neg h]
      have h0 : ceilNat batchsize - buf.length = 0 := by omega
      rw [if_neg (by simp only [List.length_cons]; omega), h0]
      simp

lemma chunksT_of_lt {c : Nat} {keys : List Key} (h : keys.length < c) :
    chunksT c keys = [keys] := by
  rw [chunksT]
  simp [h]

lemma chunksT_of_ge {c : Nat} {keys : List Key} (hc : c ≠ 0)
    (h : ¬ keys.length < c) :
    chunksT c keys = keys.take c :: chunksT c (keys.drop c) := by
  rw [chunksT]
  simp [h, hc]

lemma runLoop_eq_chunks (db : List Record) (batchsize : ℚ) (gc_collect : Int)
    (iterator_return : Bool) (hb : 1 ≤ batchsize) :
    ∀ (fuel : Nat) (keys : List Key), keys.length < fuel →
      runLoop db batchsize gc_collect iterator_return fuel keys =
        (chunksT (ceilNat batchsize) keys).flatMap
          (batchSegment db gc_collect iterator_return) := by
  have hc : ceilNat batchsize ≠ 0 := (ceilNat_pos hb).ne'
  intro fuel
  induction fuel with
  | zero => intro keys h; exact absurd h (Nat.not_lt_zero _)
  | succ fuel ih =>
    intro keys hlen
    by_cases h : keys.length < ceilNat batchsize
    · have hd : drawBatch batchsize keys [] = (keys, [], true) := by
        rw [drawBatch_eq]
        simp [h]
      simp only [runLoop, hd]
      rw [chunksT_of_lt h]
      simp [batchSegment]
    · have hd : drawBatch batchsize keys [] =
          (keys.take (ceilNat batchsize), keys.drop (ceilNat batchsize), false) := by
        rw [drawBatch_eq]
        simp [h]
      simp only [runLoop, hd]
      rw [ih (keys.drop (ceilNat batchsize))
        (by simp only [List.length_drop]; omega)]
      rw [chunksT_of_ge hc h]
      simp [batchSegment]

lemma runLoop_qs_eq (db : List Record) (batchsize : ℚ) (gc_collect : Int) :
    ∀ (fuel : Nat) (keys : List Key),
      runLoop_qs batchsize gc_collect fuel keys =
        runLoop db batchsize gc_collect false fuel keys := by
  intro fuel
  induction fuel with
  | zero => intro keys; rfl
  | succ fuel ih =>
    intro keys
    simp only [runLoop, runLoop_qs]
    rcases hd : drawBatch batchsize keys [] with ⟨buf, rest, exhausted⟩
    cases exhausted <;> simp [yieldEvents, ih]

lemma consume_eq (db : List Record) (batchsize : ℚ) (gc_collect : Int)
    (iterator_return : Bool) (hb : 1 ≤ batchsize) :
    (queryset_iterator db batchsize gc_collect iterator_return).consume =
      ((chunksT (ceilNat batchsize) (distinctPks db)).flatMap
          (batchSegment db gc_collect iterator_return) ++ gcEndEvents gc_collect,
       none) := by
  have hb1 : ¬ batchsize < 1 := not_lt.mpr hb
  simp only [queryset_iterator, Generator.consume, if_neg hb1]
  rw [runLoop_eq_chunks db batchsize gc_collect iterator_return hb _ _
    (Nat.lt_succ_self _)]

lemma gcBatchEvents_batch (ch : List Key) :
    gcBatchEvents GC_COLLECT_BATCH ch =
      if ch.isEmpty then [] else [Event.gcCollect] := by
  cases ch <;> simp [gcBatchEvents]

lemma count_gc_keyDrawn (ch : List Key) :
    (ch.map Event.keyDrawn).count Event.gcCollect = 0 := by
  rw [List.count_eq_zero]
  simp

lemma count_gc_yieldEvents (iterator_return : Bool) (db : List Record)
    (ch : List Key) :
    (yieldEvents iterator_return db ch).count Event.gcCollect = 0 := by
  rw [List.count_eq_zero]
  cases iterator_return <;> simp [yieldEvents]

lemma count_gc_flatMap_batch (db : List Record) (iterator_return : Bool)
    (L : List (List Key)) :
    (L.flatMap (batchSegment db GC_COLLECT_BATCH iterator_return)).count
        Event.gcCollect = nonemptyCount L := by
  induction L with
  | nil => rfl
  | cons ch L ih =>
    rw [List.flatMap_cons, List.count_append, ih, batchSegment,
      List.count_append, List.count_append, count_gc_keyDrawn,
      count_gc_yieldEvents, gcBatchEvents_batch]
    cases hch : ch.isEmpty <;>
      simp [nonemptyCount, List.filter_cons, hch, Nat.add_comm]

lemma gc_not_mem_runLoop (db : List Record) (batchsize : ℚ) (gc_collect : Int)
    (iterator_return : Bool) (hgc : gc_collect ≠ GC_COLLECT_BATCH) :
    ∀ (fuel : Nat) (keys : List Key),
      Event.gcCollect ∉ runLoop db batchsize gc_collect iterator_return fuel keys := by
  intro fuel
  induction fuel with
  | zero => intro keys; simp [runLoop]
  | succ fuel ih =>
    intro keys
    simp only [runLoop]
    rcases hd : drawBatch batchsize keys [] with ⟨buf, rest, exhausted⟩
    have hgcb : gcBatchEvents gc_collect buf = [] := by
      simp [gcBatchEvents, hgc]
    have hy : Event.gcCollect ∉ yieldEvents iterator_return db buf := by
      cases iterator_return <;> simp [yieldEvents]
    cases exhausted <;> simp_all [List.mem_append]

lemma yieldedRecords_append (l1 l2 : List Event) :
    yieldedRecords (l1 ++ l2) = yieldedRecords l1 ++ yieldedRecords l2 := by
  simp [yieldedRecords, List.filterMap_append]

lemma fetchBuffers_append (l1 l2 : List Event) :
    fetchBuffers (l1 ++ l2) = fetchBuffers l1 ++ fetchBuffers l2 := by
  simp [fetchBuffers, List.filterMap_append]

lemma yieldedRecords_keyDrawn (ch : List Key) :
    yieldedRecords (ch.map Event.keyDrawn) = [] := by
  induction ch with
  | nil => rfl
  | cons k ch _ => simp [yieldedRecords, List.filterMap_cons]

lemma fetchBuffers_keyDrawn (ch : List Key) :
    fetchBuffers (ch.map Event.keyDrawn) = [] := by
  induction ch with
  | nil => rfl
  | cons k ch _ => simp [fetchBuffers, List.filterMap_cons]

lemma yieldedRecords_map_yieldRecord (l : List Record) :
    yieldedRecords (l.map Event.yieldRecord) = l := by
  induction l with
  | nil => rfl
  | cons r l ih => simp_all [yieldedRecords, List.filterMap_cons]

lemma fetchBuffers_map_yieldRecord (l : List Record) :
    fetchBuffers (l.map Event.yieldRecord) = [] := by
  induction l with
  | nil => rfl
  | cons r l _ => simp [fetchBuffers, List.filterMap_cons]

lemma yieldedRecords_cons_fetchCall (pks : List Key) (l : List Event) :
    yieldedRecords (Event.fetchCall pks :: l) = yieldedRecords l := by
  simp [yieldedRecords, List.filterMap_cons]

lemma fetchBuffers_cons_fetchCall (pks : List Key) (l : List Event) :
    fetchBuffers (Event.fetchCall pks :: l) = pks :: fetchBuffers l := by
  simp [fetchBuffers, List.filterMap_cons]

lemma yieldedRecords_gcBatch (gc_collect : Int) (ch : List Key) :
    yieldedRecords (gcBatchEvents gc_collect ch) = [] := by
  unfold gcBatchEvents
  split <;> rfl

lemma fetchBuffers_gcBatch (gc_collect : Int) (ch : List Key) :
    fetchBuffers (gcBatchEvents gc_collect ch) = [] := by
  unfold gcBatchEvents
  split <;> rfl

lemma yieldedRecords_gcEnd (gc_collect : Int) :
    yieldedRecords (gcEndEvents gc_collect) = [] := by
  unfold gcEndEvents
  split <;> rfl

lemma fetchBuffers_gcEnd (gc_collect : Int) :
    fetchBuffers (gcEndEvents gc_collect) = [] := by
  unfold gcEndEvents
  split <;> rfl

lemma yieldedRecords_batchSegment (db : List Record) (gc_collect : Int)
    (ch : List Key) :
    yieldedRecords (batchSegment db gc_collect true ch) = filterFetch db ch := by
  simp [batchSegment, yieldEvents, yieldedRecords_append, yieldedRecords_keyDrawn,
    yieldedRecords_cons_fetchCall, yieldedRecords_map_yieldRecord,
    yieldedRecords_gcBatch]

lemma fetchBuffers_batchSegment (db : List Record) (gc_collect : Int)
    (ch : List Key) :
    fetchBuffers (batchSegment db gc_collect true ch) = [ch] := by
  simp [batchSegment, yieldEvents, fetchBuffers_append, fetchBuffers_keyDrawn,
    fetchBuffers_cons_fetchCall, fetchBuffers_map_yieldRecord, fetchBuffers_gcBatch]

lemma yieldedRecords_flatMap (db : List Record) (gc_collect : Int)
    (L : List (List Key)) :
    yieldedRecords (L.flatMap (batchSegment db gc_collect true)) =
      L.flatMap (filterFetch db) := by
  induction L with
  | nil => rfl
  | cons ch L ih =>
    simp [List.flatMap_cons, yieldedRecords_append, yieldedRecords_batchSegment, ih]

lemma fetchBuffers_flatMap (db : List Record) (gc_collect : Int)
    (L : List (List Key)) :
    fetchBuffers (L.flatMap (batchSegment db gc_collect true)) = L := by
  induction L with
  | nil => rfl
  | cons ch L ih =>
    simp [List.flatMap_cons, fetchBuffers_append, fetchBuffers_batchSegment, ih]

lemma chunksT_flatten_aux (c : Nat) (hc : c ≠ 0) :
    ∀ (n : Nat) (keys : List Key), keys.length ≤ n →
      (chunksT c keys).flatten = keys := by
  intro n
  induction n with
  | zero =>
    intro keys h
    have hk : keys = [] := List.length_eq_zero.mp (Nat.le_zero.mp h)
    subst hk
    rw [chunksT_of_lt (by omega)]
    rfl
  | succ n ih =>
    intro keys h
    by_cases hl : keys.length < c
    · rw [chunksT_of_lt hl]
      simp
    · rw [chunksT_of_ge hc hl, List.flatten_cons,
        ih (keys.drop c) (by simp only [List.length_drop]; omega)]
      exact List.take_append_drop c keys

lemma chunksT_flatten (c : Nat) (hc : c ≠ 0) (keys : List Key) :
    (chunksT c keys).flatten = keys :=
  chunksT_flatten_aux c hc keys.length keys le_rfl

lemma filter_mem_append_perm (db : List Record) (c r : List Key)
    (hdisj : List.Disjoint c r) :
    List.Perm (db.filter (fun x => decide (x.1 ∈ c ++ r)))
      (db.filter (fun x => decide (x.1 ∈ c)) ++
        db.filter (fun x => decide (x.1 ∈ r))) := by
  induction db with
  | nil => simp
  | cons x db ih =>
    by_cases hc : x.1 ∈ c
    · have hr : x.1 ∉ r := fun hr => hdisj hc hr
      rw [List.filter_cons_of_pos (by simp [List.mem_append, hc]),
        List.filter_cons_of_pos (by simp [hc]),
        List.filter_cons_of_neg (by simp [hr]), List.cons_append]
      exact ih.cons x
    · by_cases hr : x.1 ∈ r
      · rw [List.filter_cons_of_pos (by simp [List.mem_append, hr]),
          List.filter_cons_of_neg (by simp [hc]),
          List.filter_cons_of_pos (by simp [hr])]
        exact (ih.cons x).trans List.perm_middle.symm
      · rw [List.filter_cons_of_neg (by simp [List.mem_append, hc, hr]),
          List.filter_cons_of_neg (by simp [hc]),
          List.filter_cons_of_neg (by simp [hr])]
        exact ih

lemma flatMap_filterFetch_perm (db : List Record) :
    ∀ (L : List (List Key)), L.Pairwise List.Disjoint →
      List.Perm (L.flatMap (filterFetch db))
        (db.filter (fun x => decide (x.1 ∈ L.flatten))) := by
  intro L
  induction L with
  | nil =>
    intro _
    simp
  | cons ch L ih =>
    intro hp
    rw [List.pairwise_cons] at hp
    have hdisj : List.Disjoint ch L.flatten := by
      intro a hac haf
      obtain ⟨l, hl, hal⟩ := List.mem_flatten.mp haf
      exact hp.1 l hl hac hal
    rw [List.flatMap_cons, List.flatten_cons]
    exact (List.Perm.append_left (filterFetch db ch) (ih hp.2)).trans
      (filter_mem_append_perm db ch L.flatten hdisj).symm

lemma countP_eq_zero_of_not_mem_flatten (k : Key) :
    ∀ (L : List (List Key)), k ∉ L.flatten →
      L.countP (fun ch => decide (k ∈ ch)) = 0 := by
  intro L
  induction L with
  | nil => intro _; rfl
  | cons ch L ih =>
    intro h
    rw [List.flatten_cons, List.mem_append] at h
    push_neg at h
    rw [List.countP_cons, ih h.2]
    simp [h.1]

lemma countP_eq_one_of_mem_flatten (k : Key) :
    ∀ (L : List (List Key)), L.Pairwise List.Disjoint → k ∈ L.flatten →
      L.countP (fun ch => decide (k ∈ ch)) = 1 := by
  intro L
  induction L with
  | nil =>
    intro _ h
    simp at h
  | cons ch L ih =>
    intro hp hk
    rw [List.pairwise_cons] at hp
    rw [List.countP_cons]
    by_cases hc : k ∈ ch
    · have hnf : k ∉ L.flatten := by
        intro hf
        obtain ⟨l, hl, hal⟩ := List.mem_flatten.mp hf
        exact hp.1 l hl hc hal
      rw [countP_eq_zero_of_not_mem_flatten k L hnf]
      simp [hc]
    · rw [List.flatten_cons, List.mem_append] at hk
      rcases hk with hk | hk
      · exact absurd hk hc
      · rw [ih hp.2 hk]
        simp [hc]

lemma drawBatchE_eq (batchsize : ℚ) :
    ∀ (pre : List Key) (post : List (Except Unit Key)) (buf : List Key),
      drawBatchE batchsize (pre.map Except.ok ++ Except.error () :: post) buf =
        if buf.length + pre.length < ceilNat batchsize then
          (buf ++ pre, post, DrawStop.errored)
        else (buf ++ pre.take (ceilNat batchsize - buf.length),
          (pre.drop (ceilNat batchsize - buf.length)).map Except.ok ++
            Except.error () :: post, DrawStop.filled) := by
  intro pre
  induction pre with
  | nil =>
    intro post buf
    simp only [List.map_nil, List.nil_append, List.length_nil, drawBatchE,
      natCast_lt_iff]
    by_cases h : buf.length < ceilNat batchsize
    · rw [if_pos h, if_pos (by omega)]
      simp
    · rw [if_neg h, if_neg (by omega)]
      have h0 : ceilNat batchsize - buf.length = 0 := by omega
      rw [h0]
      simp
  | cons k pre ih =>
    intro post buf
    simp only [List.map_cons, List.cons_append, List.append_eq, drawBatchE,
      natCast_lt_iff]
    by_cases h : buf.length < ceilNat batchsize
    · rw [if_pos h, ih post (buf ++ [k])]
      have hlen : (buf ++ [k]).length = buf.length + 1 := by simp
      obtain ⟨m, hm⟩ : ∃ m, ceilNat batchsize - buf.length = m + 1 :=
        ⟨ceilNat batchsize - buf.length - 1, by omega⟩
      have hm' : ceilNat batchsize - (buf ++ [k]).length = m := by omega
      rw [hm', hm]
      have hc1 : ((buf ++ [k]).length + pre.length < ceilNat batchsize) ↔
          (buf.length + (k :: pre).length < ceilNat batchsize) := by
        simp only [List.length_cons]
        omega
      by_cases h2 : buf.length + (k :: pre).length < ceilNat batchsize
      · rw [if_pos (hc1.mpr h2), if_pos h2]
        simp
      · rw [if_neg (fun hh => h2 (hc1.mp hh)), if_neg h2]
        simp [List.take_succ_cons, List.drop_succ_cons]
    · rw [if_neg h]
      have h0 : ceilNat batchsize - buf.length = 0 := by omega
      rw [if_neg (by simp only [List.length_cons]; omega), h0]
      simp

lemma runLoopE_eq_chunks (db : List Record) (batchsize : ℚ) (gc_collect : Int)
    (iterator_return : Bool) (hb : 1 ≤ batchsize) :
    ∀ (fuel : Nat) (pre : List Key) (post : List (Except Unit Key)),
      pre.length < fuel →
      runLoopE db batchsize gc_collect iterator_return fuel
          (pre.map Except.ok ++ Except.error () :: post) =
        ((chunksT (ceilNat batchsize) pre).flatMap
            (batchSegment db gc_collect iterator_return),
         some PyError.sourceError) := by
  have hc : ceilNat batchsize ≠ 0 := (ceilNat_pos hb).ne'
  intro fuel
  induction fuel with
  | zero => intro pre post h; exact absurd h (Nat.not_lt_zero _)
  | succ fuel ih =>
    intro pre post hlen
    by_cases h : pre.length < ceilNat batchsize
    · have hd : drawBatchE batchsize
          (pre.map Except.ok ++ Except.error () :: post) [] =
          (pre, post, DrawStop.errored) := by
        rw [drawBatchE_eq]
        simp [h]
      simp only [runLoopE, hd]
      rw [chunksT_of_lt h]
      simp [batchSegment]
    · have hd : drawBatchE batchsize
          (pre.map Except.ok ++ Except.error () :: post) [] =
          (pre.take (ceilNat batchsize),
           (pre.drop (ceilNat batchsize)).map Except.ok ++ Except.error () :: post,
           DrawStop.filled) := by
        rw [drawBatchE_eq]
        simp [h]
      simp only [runLoopE, hd]
      rw [ih (pre.drop (ceilNat batchsize)) post
        (by simp only [List.length_drop]; omega)]
      rw [chunksT_of_ge hc h]
      simp [batchSegment]

lemma drawBatchE_ok_eq (batchsize : ℚ) :
    ∀ (keys buf : List Key),
      drawBatchE batchsize (keys.map Except.ok) buf =
        if buf.length + keys.length < ceilNat batchsize then
          (buf ++ keys, [], DrawStop.exhausted)
        else (buf ++ keys.take (ceilNat batchsize - buf.length),
          (keys.drop (ceilNat batchsize - buf.length)).map Except.ok,
          DrawStop.filled) := by
  intro keys
  induction keys with
  | nil =>
    intro buf
    simp only [List.map_nil, List.length_nil, drawBatchE, natCast_lt_iff]
    by_cases h : buf.length < ceilNat batchsize
    · rw [if_pos h, if_pos (by omega)]
      simp
    · rw [if_neg h, if_neg (by omega)]
      have h0 : ceilNat batchsize - buf.length = 0 := by omega
      rw [h0]
      simp
  | cons k keys ih =>
    intro buf
    simp only [List.map_cons, drawBatchE, natCast_lt_iff]
    by_cases h : buf.length < ceilNat batchsize
    · rw [if_pos h, ih (buf ++ [k])]
      have hlen : (buf ++ [k]).length = buf.length + 1 := by simp
      obtain ⟨m, hm⟩ : ∃ m, ceilNat batchsize - buf.length = m + 1 :=
        ⟨ceilNat batchsize - buf.length - 1, by omega⟩
      have hm' : ceilNat batchsize - (buf ++ [k]).length = m := by omega
      rw [hm', hm]
      have hc1 : ((buf ++ [k]).length + keys.length < ceilNat batchsize) ↔
          (buf.length + (k :: keys).length < ceilNat batchsize) := by
        simp only [List.length_cons]
        omega
      by_cases h2 : buf.length + (k :: keys).length < ceilNat batchsize
      · rw [if_pos (hc1.mpr h2), if_pos h2]
        simp
      · rw [if_neg (fun hh => h2 (hc1.mp hh)), if_neg h2]
        simp [List.take_succ_cons, List.drop_succ_cons]
    · rw [if_neg h]
      have h0 : ceilNat batchsize - buf.length = 0 := by omega
      rw [if_neg (by simp only [List.length_cons]; omega), h0]
      simp

lemma runLoopF_batches_eq_runLoopE (db : List Record)
    (fetchF : List Key → List Record × Bool) (batchsize : ℚ) (gc_collect : Int) :
    ∀ (fuel : Nat) (stream : List (Except Unit Key)),
      runLoopF fetchF batchsize gc_collect false fuel stream =
        runLoopE db batchsize gc_collect false fuel stream := by
  intro fuel
  induction fuel with
  | zero => intro stream; rfl
  | succ fuel ih =>
    intro stream
    simp only [runLoopF, runLoopE]
    rcases hd : drawBatchE batchsize stream [] with ⟨buf, rest, status⟩
    cases status with
    | filled =>
      rcases h2 : runLoopE db batchsize gc_collect false fuel rest with ⟨evts, err⟩
      simp [yieldEventsF, yieldEvents, ih, h2, List.append_assoc]
    | exhausted => simp [yieldEventsF, yieldEvents, List.append_assoc]
    | errored => simp [yieldEventsF, yieldEvents, List.append_assoc]

lemma runLoopF_fetch_error (fetchF : List Key → List Record × Bool)
    (batchsize : ℚ) (gc_collect : Int) (hb : 1 ≤ batchsize) :
    ∀ (fuel : Nat) (keys : List Key) (L1 : List (List Key)) (chBad : List Key)
      (L2 : List (List Key)),
      keys.length < fuel →
      chunksT (ceilNat batchsize) keys = L1 ++ chBad :: L2 →
      (∀ ch ∈ L1, (fetchF ch).2 = false) →
      (fetchF chBad).2 = true →
      runLoopF fetchF batchsize gc_collect true fuel (keys.map Except.ok) =
        (L1.flatMap (fun ch => recordSegmentF fetchF ch ++
            gcBatchEvents gc_collect ch) ++ recordSegmentF fetchF chBad,
         some PyError.fetchError) := by
  have hc : ceilNat batchsize ≠ 0 := (ceilNat_pos hb).ne'
  intro fuel
  induction fuel with
  | zero => intro keys L1 chBad L2 h; exact absurd h (Nat.not_lt_zero _)
  | succ fuel ih =>
    intro keys L1 chBad L2 hlen hch hok hbad
    by_cases h : keys.length < ceilNat batchsize
    · rw [chunksT_of_lt h] at hch
      have hL1 : L1 = [] := by
        cases L1 with
        | nil => rfl
        | cons a L1 =>
          rw [List.cons_append] at hch
          injection hch with h1 h2
          exact absurd h2 (by simp)
      subst hL1
      rw [List.nil_append] at hch
      injection hch with h1 h2
      subst h1
      have hd : drawBatchE batchsize (keys.map Except.ok) [] =
          (keys, [], DrawStop.exhausted) := by
        rw [drawBatchE_ok_eq]
        simp [h]
      simp only [runLoopF, hd]
      simp [yieldEventsF, hbad, recordSegmentF]
    · rw [chunksT_of_ge hc h] at hch
      have hd : drawBatchE batchsize (keys.map Except.ok) [] =
          (keys.take (ceilNat batchsize),
           (keys.drop (ceilNat batchsize)).map Except.ok, DrawStop.filled) := by
        rw [drawBatchE_ok_eq]
        simp [h]
      simp only [runLoopF, hd]
      cases L1 with
      | nil =>
        rw [List.nil_append] at hch
        injection hch with h1 h2
        subst h1
        simp [yieldEventsF, hbad, recordSegmentF]
      | cons ch1 L1 =>
        rw [List.cons_append] at hch
        injection hch with h1 h2
        have hok1 : (fetchF ch1).2 = false := hok ch1 (by simp)
        have hrec := ih (keys.drop (ceilNat batchsize)) L1 chBad L2
          (by simp only [List.length_drop]; omega) h2
          (fun ch hch' => hok ch (List.mem_cons_of_mem _ hch')) hbad
        rw [hrec]
        simp [yieldEventsF, hok1, recordSegmentF, h1, List.append_assoc]

/-- Claim C1: the specification states that when the key sequence is exhausted
and the final buffer is empty, the pass stops without yielding anything for
that buffer in either mode.  The code violates this in BATCHES mode: the yield
step sits in the `finally` block, which also runs on the `StopIteration`
break path, so a batch handle for the empty buffer is yielded (evaluated here
on an empty source with batch size 1).  In RECORDS mode the same path only
issues an empty fetch and indeed yields no record. -/
theorem C1_empty_final_buffer_eval :
    (queryset_iterator [] 1 GC_COLLECT_BATCH false).consume =
      ([Event.yieldBatch []], none) ∧
    (queryset_iterator [] 1 GC_COLLECT_BATCH true).consume =
      ([Event.fetchCall []], none) := by
  constructor
  · rfl
  · rfl

/-- Claim C2: the specification states that exactly `ceil(n / b)` batches are
produced, all but possibly the last of size exactly `b`.  The code violates
this whenever `b` divides `n` (including `n = 0`): a trailing empty batch is
also produced.  Evaluated here on one key with batch size 1,
`queryset_iterator_qs` yields two batch handles where the claim requires
exactly one. -/
theorem C2_exact_batch_count_eval :
    queryset_iterator_qs [(1, 10)] 1 0 =
      ([Event.keyDrawn 1, Event.yieldBatch [1], Event.yieldBatch []], none) := by
  rfl

/-- Claim C3: for every source and every batch size b ≥ 1, the records yielded
in RECORDS mode over a full pass are a permutation (equal multiset) of the
source records; the fetched key buffers are pairwise disjoint, their
concatenation is the full deduplicated key sequence, and every deduplicated
key appears in exactly one fetch call. -/
theorem C3_records_multiset (db : List Record) (batchsize : ℚ) (gc_collect : Int)
    (hb : 1 ≤ batchsize) :
    List.Perm
      (yieldedRecords
        ((queryset_iterator db batchsize gc_collect true).consume).1) db ∧
    (fetchBuffers
        ((queryset_iterator db batchsize gc_collect true).consume).1).flatten =
      distinctPks db ∧
    (fetchBuffers
        ((queryset_iterator db batchsize gc_collect true).consume).1).Pairwise
      List.Disjoint ∧
    ∀ k ∈ distinctPks db,
      (fetchBuffers
          ((queryset_iterator db batchsize gc_collect true).consume).1).countP
        (fun ch => decide (k ∈ ch)) = 1 := by
  have hc : ceilNat batchsize ≠ 0 := (ceilNat_pos hb).ne'
  have hevts : ((queryset_iterator db batchsize gc_collect true).consume).1 =
      (chunksT (ceilNat batchsize) (distinctPks db)).flatMap
        (batchSegment db gc_collect true) ++ gcEndEvents gc_collect := by
    rw [consume_eq db batchsize gc_collect true hb]
  have hfb : fetchBuffers
      ((queryset_iterator db batchsize gc_collect true).consume).1 =
      chunksT (ceilNat batchsize) (distinctPks db) := by
    rw [hevts, fetchBuffers_append, fetchBuffers_flatMap, fetchBuffers_gcEnd,
      List.append_nil]
  have hflat : (chunksT (ceilNat batchsize) (distinctPks db)).flatten =
      distinctPks db := chunksT_flatten _ hc _
  have hnodup : ((chunksT (ceilNat batchsize) (distinctPks db)).flatten).Nodup := by
    rw [hflat]
    exact List.nodup_dedup _
  have hpair : (chunksT (ceilNat batchsize) (distinctPks db)).Pairwise
      List.Disjoint := (List.nodup_flatten.mp hnodup).2
  refine ⟨?_, ?_, ?_, ?_⟩
  · have hyr : yieldedRecords
        ((queryset_iterator db batchsize gc_collect true).consume).1 =
        (chunksT (ceilNat batchsize) (distinctPks db)).flatMap (filterFetch db) := by
      rw [hevts, yieldedRecords_append, yieldedRecords_flatMap,
        yieldedRecords_gcEnd, List.append_nil]
    rw [hyr]
    have hperm := flatMap_filterFetch_perm db _ hpair
    rw [hflat] at hperm
    have hfilter : db.filter (fun x => decide (x.1 ∈ distinctPks db)) = db := by
      rw [List.filter_eq_self]
      intro x hx
      simpa [distinctPks, List.mem_dedup] using List.mem_map_of_mem Prod.fst hx
    rw [hfilter] at hperm
    exact hperm
  · rw [hfb]
    exact hflat
  · rw [hfb]
    exact hpair
  · intro k hk
    rw [hfb]
    exact countP_eq_one_of_mem_flatten k _ hpair (by rw [hflat]; exact hk)

theorem C3_records_multiset_witness :
    1 ≤ (2 : ℚ) ∧
    List.Perm
      (yieldedRecords
        ((queryset_iterator [(1, 10), (2, 20), (3, 30)] 2
          GC_COLLECT_BATCH true).consume).1)
      [(1, 10), (2, 20), (3, 30)] :=
  ⟨by norm_num,
   (C3_records_multiset [(1, 10), (2, 20), (3, 30)] 2 GC_COLLECT_BATCH
     (by norm_num)).1⟩

/-- Claim C4: for every batch size below 1 both functions fail with the
invalid-argument error (`ValueError`).  Calling the generator function itself
performs no validation and draws no key (it only packages the arguments, as
Python generator semantics dictate); the error is raised on the first
consumption step with no event emitted before it, in particular before any
key is drawn. -/
theorem C4_batchsize_below_one (db : List Record) (batchsize : ℚ)
    (gc_collect : Int) (iterator_return : Bool) (hb : batchsize < 1) :
    queryset_iterator db batchsize gc_collect iterator_return =
      Generator.mk db batchsize gc_collect iterator_return ∧
    (queryset_iterator db batchsize gc_collect iterator_return).consume =
      ([], some PyError.valueError) ∧
    queryset_iterator_qs db batchsize gc_collect =
      ([], some PyError.valueError) := by
  refine ⟨rfl, ?_, ?_⟩
  · simp [queryset_iterator, Generator.consume, hb]
  · simp [queryset_iterator_qs, hb]

theorem C4_batchsize_below_one_witness :
    (0 : ℚ) < 1 ∧
    (queryset_iterator [(1, 10)] 0 GC_COLLECT_BATCH true).consume =
      ([], some PyError.valueError) :=
  ⟨by norm_num,
   (C4_batchsize_below_one [(1, 10)] 0 GC_COLLECT_BATCH true (by norm_num)).2.1⟩

/-- Claim C5: the specification requires every non-integral batch size to fail
with the invalid-argument error before any I/O, in both functions.  The code
violates this in `queryset_iterator`: its `isinstance` check is commented out
(core.py lines 33-34), so batch size 3/2 is accepted, keys are drawn, and the
pass runs with buffers of two keys (`len(pk_buffer) < 1.5` admits length 1).
Only `queryset_iterator_qs` rejects 3/2 with `TypeError`.  The repository's
own test `test_fails_on_bad_type_for_batch_size` expects `TypeError` for 1.5
from `queryset_iterator`, so the code contradicts its tests. -/
theorem C5_noninteger_batchsize_accepted :
    threeHalves.isInt = false ∧
    (queryset_iterator [(1, 10), (2, 20), (3, 30)] threeHalves 0 true).consume =
      ([Event.keyDrawn 1, Event.keyDrawn 2, Event.fetchCall [1, 2],
        Event.yieldRecord (1, 10), Event.yieldRecord (2, 20),
        Event.keyDrawn 3, Event.fetchCall [3], Event.yieldRecord (3, 30)],
       none) ∧
    queryset_iterator_qs [(1, 10), (2, 20), (3, 30)] threeHalves 0 =
      ([], some PyError.typeError) := by
  refine ⟨by decide, by decide, by decide⟩

/-- Claim C6: with the PER_BATCH policy (`gc_collect = GC_COLLECT_BATCH`) and
batch size b ≥ 1, the pass succeeds and `gc.collect()` is invoked exactly once
per non-empty batch, each invocation placed directly after that batch's yield
step inside the per-batch segment, and zero times when the source is empty. -/
theorem C6_gc_per_batch (db : List Record) (batchsize : ℚ)
    (iterator_return : Bool) (hb : 1 ≤ batchsize) :
    ((queryset_iterator db batchsize GC_COLLECT_BATCH iterator_return).consume).2 =
      none ∧
    ((queryset_iterator db batchsize GC_COLLECT_BATCH iterator_return).consume).1 =
      (chunksT (ceilNat batchsize) (distinctPks db)).flatMap
        (fun ch => ch.map Event.keyDrawn ++ yieldEvents iterator_return db ch ++
          if ch.isEmpty then [] else [Event.gcCollect]) ∧
    (((queryset_iterator db batchsize GC_COLLECT_BATCH
        iterator_return).consume).1).count Event.gcCollect =
      nonemptyCount (chunksT (ceilNat batchsize) (distinctPks db)) ∧
    (db = [] →
      (((queryset_iterator db batchsize GC_COLLECT_BATCH
          iterator_return).consume).1).count Event.gcCollect = 0) := by
  have hevts : ((queryset_iterator db batchsize GC_COLLECT_BATCH
      iterator_return).consume).1 =
      (chunksT (ceilNat batchsize) (distinctPks db)).flatMap
        (batchSegment db GC_COLLECT_BATCH iterator_return) := by
    rw [consume_eq db batchsize GC_COLLECT_BATCH iterator_return hb]
    simp [gcEndEvents, GC_COLLECT_BATCH, GC_COLLECT_END]
  have hseg : batchSegment db GC_COLLECT_BATCH iterator_return =
      fun ch => ch.map Event.keyDrawn ++ yieldEvents iterator_return db ch ++
        if ch.isEmpty then [] else [Event.gcCollect] := by
    funext ch
    rw [batchSegment, gcBatchEvents_batch]
  have hcount : (((queryset_iterator db batchsize GC_COLLECT_BATCH
      iterator_return).consume).1).count Event.gcCollect =
      nonemptyCount (chunksT (ceilNat batchsize) (distinctPks db)) := by
    rw [hevts, count_gc_flatMap_batch]
  refine ⟨?_, ?_, hcount, ?_⟩
  · rw [consume_eq db batchsize GC_COLLECT_BATCH iterator_return hb]
  · rw [hevts, hseg]
  · intro hdb
    subst hdb
    rw [hcount, show distinctPks ([] : List Record) = [] from rfl,
      chunksT_of_lt (by simpa using ceilNat_pos hb)]
    rfl

theorem C6_gc_per_batch_witness :
    1 ≤ (2 : ℚ) ∧
    (((queryset_iterator [(1, 10), (2, 20), (3, 30)] 2 GC_COLLECT_BATCH
        true).consume).1).count Event.gcCollect =
      nonemptyCount (chunksT (ceilNat 2) (distinctPks [(1, 10), (2, 20), (3, 30)])) :=
  ⟨by norm_num,
   (C6_gc_per_batch [(1, 10), (2, 20), (3, 30)] 2 true (by norm_num)).2.2.1⟩

/-- Claim C7: with the AT_END policy (`gc_collect = GC_COLLECT_END`) and batch
size b ≥ 1, the pass succeeds and `gc.collect()` is invoked exactly once, as
the final event of the whole pass, regardless of how many batches were
produced (including an empty source). -/
theorem C7_gc_at_end (db : List Record) (batchsize : ℚ) (iterator_return : Bool)
    (hb : 1 ≤ batchsize) :
    ((queryset_iterator db batchsize GC_COLLECT_END iterator_return).consume).2 =
      none ∧
    (((queryset_iterator db batchsize GC_COLLECT_END
        iterator_return).consume).1).count Event.gcCollect = 1 ∧
    (((queryset_iterator db batchsize GC_COLLECT_END
        iterator_return).consume).1).getLast? = some Event.gcCollect := by
  have hb1 : ¬ batchsize < 1 := not_lt.mpr hb
  have hrl := gc_not_mem_runLoop db batchsize GC_COLLECT_END iterator_return
    (by norm_num [GC_COLLECT_END, GC_COLLECT_BATCH])
    ((distinctPks db).length + 1) (distinctPks db)
  have hevts : ((queryset_iterator db batchsize GC_COLLECT_END
      iterator_return).consume).1 =
      runLoop db batchsize GC_COLLECT_END iterator_return
        ((distinctPks db).length + 1) (distinctPks db) ++ [Event.gcCollect] := by
    simp [queryset_iterator, Generator.consume, hb1, gcEndEvents]
  refine ⟨?_, ?_, ?_⟩
  · simp [queryset_iterator, Generator.consume, hb1]
  · rw [hevts, List.count_append, List.count_eq_zero.mpr hrl]
    rfl
  · rw [hevts]
    simp [List.getLast?_concat]

theorem C7_gc_at_end_witness :
    1 ≤ (1 : ℚ) ∧
    (((queryset_iterator [] 1 GC_COLLECT_END true).consume).1).count
        Event.gcCollect = 1 :=
  ⟨by norm_num, (C7_gc_at_end [] 1 true (by norm_num)).2.1⟩

/-- Claim C8 (counterexample): the claim states that an error raised by the
key enumeration surfaces to the consumer immediately at the point of the next
demanded element.  With source records (1,10),(2,20), batch size 2 and a key
stream delivering key 1 and then raising, the next demanded element is not
the error: the `finally` block first fetches and yields the record for the
partially filled buffer `[1]`, and only afterwards does the error surface. -/
theorem C8_counterexample_partial_yield :
    (queryset_iteratorE [(1, 10), (2, 20)] 2 0 true
        [Except.ok 1, Except.error ()]) =
      ([Event.keyDrawn 1, Event.fetchCall [1], Event.yieldRecord (1, 10)],
       some PyError.sourceError) ∧
    Event.yieldRecord (1, 10) ∈
      (queryset_iteratorE [(1, 10), (2, 20)] 2 0 true
        [Except.ok 1, Except.error ()]).1 := by
  refine ⟨by decide, by decide⟩

/-- Claim C8 (amended): any error raised by the source's key enumeration or by
a fetch performed inside the component (other than normal exhaustion) is not
caught or translated, propagates to the consumer unchanged with no retries,
and no further batch is attempted after it (the end-of-pass gc check also
does not run).  First conjunct: a key-enumeration error does not surface at
the point of the next demanded element — the `finally` block first runs the
complete yield step (and per-batch gc check) for the partially filled buffer,
and only then does the error surface.  Second conjunct: a fetch error, which
can occur inside the component only in RECORDS mode, surfaces at the next
demanded element, directly after the records the failing fetch already
delivered, and the per-batch gc check of the failing batch is skipped.
Third conjunct: in BATCHES mode the component never executes a fetch, so no
fetch error can arise inside it — its behaviour coincides with the
infallible-fetch model for every fallible fetch. -/
theorem C8_error_propagation (db : List Record) (batchsize : ℚ)
    (gc_collect : Int) (iterator_return : Bool) (pre keys : List Key)
    (post stream : List (Except Unit Key))
    (fetchF : List Key → List Record × Bool) (L1 L2 : List (List Key))
    (chBad : List Key) (hb : 1 ≤ batchsize) :
    (queryset_iteratorE db batchsize gc_collect iterator_return
        (pre.map Except.ok ++ Except.error () :: post) =
      ((chunksT (ceilNat batchsize) pre).flatMap
          (batchSegment db gc_collect iterator_return),
       some PyError.sourceError)) ∧
    (chunksT (ceilNat batchsize) keys = L1 ++ chBad :: L2 →
      (∀ ch ∈ L1, (fetchF ch).2 = false) →
      (fetchF chBad).2 = true →
      queryset_iteratorF fetchF batchsize gc_collect true (keys.map Except.ok) =
        (L1.flatMap (fun ch => recordSegmentF fetchF ch ++
            gcBatchEvents gc_collect ch) ++ recordSegmentF fetchF chBad,
         some PyError.fetchError)) ∧
    queryset_iteratorF fetchF batchsize gc_collect false stream =
      queryset_iteratorE db batchsize gc_collect false stream := by
  have hb1 : ¬ batchsize < 1 := not_lt.mpr hb
  refine ⟨?_, ?_, ?_⟩
  · unfold queryset_iteratorE
    rw [if_neg hb1, runLoopE_eq_chunks db batchsize gc_collect iterator_return hb _
      pre post
      (by simp only [List.length_append, List.length_map, List.length_cons]; omega)]
  · intro hch hok hbad
    unfold queryset_iteratorF
    rw [if_neg hb1, runLoopF_fetch_error fetchF batchsize gc_collect hb _ keys L1
      chBad L2 (by simp only [List.length_map]; omega) hch hok hbad]
  · unfold queryset_iteratorF queryset_iteratorE
    rw [if_neg hb1, if_neg hb1,
      runLoopF_batches_eq_runLoopE db fetchF batchsize gc_collect]

theorem C8_error_propagation_witness :
    1 ≤ (2 : ℚ) ∧
    chunksT (ceilNat 2) [1, 2, 3] = [[1, 2]] ++ [3] :: [] ∧
    (∀ ch ∈ [[1, 2]], (fetchRaisingOn3 ch).2 = false) ∧
    (fetchRaisingOn3 [3]).2 = true ∧
    queryset_iteratorF fetchRaisingOn3 2 GC_COLLECT_BATCH true
        ([1, 2, 3].map Except.ok) =
      ([[1, 2]].flatMap (fun ch => recordSegmentF fetchRaisingOn3 ch ++
          gcBatchEvents GC_COLLECT_BATCH ch) ++ recordSegmentF fetchRaisingOn3 [3],
       some PyError.fetchError) := by
  have hceil : ceilNat 2 = 2 := by
    unfold ceilNat
    rw [show (⌈(2 : ℚ)⌉ : ℤ) = 2 by norm_num]
    rfl
  have hch : chunksT (ceilNat 2) [1, 2, 3] = [[1, 2]] ++ [3] :: [] := by
    rw [hceil, chunksT_of_ge (by decide) (by decide), chunksT_of_lt (by decide)]
    rfl
  exact ⟨by norm_num, hch, by decide, by decide,
    (C8_error_propagation [] 2 GC_COLLECT_BATCH true [] [1, 2, 3] [] []
      fetchRaisingOn3 [[1, 2]] [] [3] (by norm_num)).2.1 hch (by decide)
      (by decide)⟩

/-- Claim C9: under the precondition that the batch size is an integer,
`queryset_iterator` with `iterator_return=False` and `queryset_iterator_qs`
are behaviorally equivalent for every source, every integer batch size
(including invalid ones) and every gc policy value: same validation outcome,
same batch handles with the same key buffers in the same order, and the same
gc invocations at the same points. -/
theorem C9_iterator_return_false_equiv_qs (db : List Record) (batchsize : ℚ)
    (gc_collect : Int) (hint : batchsize.isInt = true) :
    (queryset_iterator db batchsize gc_collect false).consume =
      queryset_iterator_qs db batchsize gc_collect := by
  by_cases hb : batchsize < 1
  · simp [queryset_iterator, Generator.consume, queryset_iterator_qs, hb]
  · simp only [queryset_iterator, Generator.consume, queryset_iterator_qs,
      if_neg hb, hint]
    rw [if_neg (by simp), runLoop_qs_eq db]

theorem C9_iterator_return_false_equiv_qs_witness :
    (3 : ℚ).isInt = true ∧
    (queryset_iterator [(1, 10), (2, 20)] 3 GC_COLLECT_END false).consume =
      queryset_iterator_qs [(1, 10), (2, 20)] 3 GC_COLLECT_END :=
  ⟨by decide,
   C9_iterator_return_false_equiv_qs [(1, 10), (2, 20)] 3 GC_COLLECT_END
     (by decide)⟩

/-- Claim C10: in `queryset_iterator_qs` the positivity check precedes the
integer-type check: a non-integral batch size below 1 raises the size error
(`ValueError`), and the type error (`TypeError`) is raised exactly for the
non-integral batch sizes that are not below 1. -/
theorem C10_qs_validation_order (db : List Record) (batchsize : ℚ)
    (gc_collect : Int) (hni : batchsize.isInt = false) :
    (batchsize < 1 →
      queryset_iterator_qs db batchsize gc_collect =
        ([], some PyError.valueError)) ∧
    (1 ≤ batchsize →
      queryset_iterator_qs db batchsize gc_collect =
        ([], some PyError.typeError)) := by
  constructor
  · intro hb
    simp [queryset_iterator_qs, hb]
  · intro hb
    simp [queryset_iterator_qs, not_lt.mpr hb, hni]

theorem C10_qs_validation_order_witness :
    oneHalf.isInt = false ∧ oneHalf < 1 ∧
    queryset_iterator_qs [(1, 10)] oneHalf 0 = ([], some PyError.valueError) ∧
    threeHalves.isInt = false ∧ 1 ≤ threeHalves ∧
    queryset_iterator_qs [(1, 10)] threeHalves 0 =
      ([], some PyError.typeError) :=
  ⟨by decide, by decide,
   (C10_qs_validation_order [(1, 10)] oneHalf 0 (by decide)).1 (by decide),
   by decide, by decide,
   (C10_qs_validation_order [(1, 10)] threeHalves 0 (by decide)).2 (by decide)⟩

end QuerysetIterator
